import Mathlib

/-!
Verification development for the `veritas` web dashboard frontend.

This file gives a shallow embedding of the computational parts of the
repository (timestamp parsing/formatting, chart interpolation, the video
player's proposition trigger/dismiss state machine, the leaderboard truth
index cell, and the running-average graph's data merge), and proves the
specified properties about them.

JavaScript numbers are modelled as `Option ℚ`, with `none` standing for
`NaN`; JavaScript strings are modelled as `List Char` (`JStr`).
-/

/-- JavaScript strings, modelled as lists of characters. -/
abbrev JStr := List Char

/-- A JavaScript numeric value: `none` models `NaN`. -/
abbrev JsNum := Option ℚ

namespace Veritas

/-! ## Model of the JavaScript primitives used by the utilities -/

/-- Model of `String.prototype.split(sep)` for a single-character
separator: splits at every occurrence, keeping empty pieces. -/
def splitOnChar (c : Char) : List Char → List (List Char)
  | [] => [[]]
  | x :: xs =>
    match splitOnChar c xs with
    | [] => [[]]
    | h :: t => if x = c then [] :: h :: t else (x :: h) :: t

/-- Whitespace characters stripped by JS `Number(string)` coercion
(the common ASCII ones). -/
def isJsSpace (c : Char) : Bool := c = ' ' || c = '\t' || c = '\n' || c = '\r'

/-- Strip leading and trailing whitespace, as JS string→number coercion does. -/
def trimJs (s : JStr) : JStr :=
  ((s.dropWhile isJsSpace).reverse.dropWhile isJsSpace).reverse

/-- Numeric value of a (possibly empty) list of decimal digit characters. -/
def digitsValRaw (cs : List Char) : ℕ :=
  cs.foldl (fun a c => 10 * a + (c.toNat - 48)) 0

/-- Value of a nonempty all-digit string; `none` otherwise. -/
def digitsVal? (cs : List Char) : Option ℕ :=
  if cs ≠ [] ∧ cs.all Char.isDigit then some (digitsValRaw cs) else none

/-- Value of an unsigned decimal literal: digits, optionally with a single
decimal point (`"12"`, `"12.5"`, `".5"`, `"5."`); `none` models `NaN`. -/
def decLitVal? (u : JStr) : Option ℚ :=
  match splitOnChar '.' u with
  | [a] => (digitsVal? a).map (fun n => (n : ℚ))
  | [a, b] =>
    if a = [] ∧ b = [] then none
    else if a.all Char.isDigit ∧ b.all Char.isDigit then
      some ((digitsValRaw a : ℚ) + (digitsValRaw b : ℚ) / (10 : ℚ) ^ b.length)
    else none
  | _ => none

/-- Model of JS `Number(string)` on the decimal fragment this codebase
feeds it: optional surrounding whitespace, empty string is `0`, an
optionally signed decimal literal parses, and everything else (in
particular any string containing `':'`) is `NaN` (`none`).  Exponent,
hexadecimal and `Infinity` forms do not occur in this repository and are
not modelled. -/
def jsNumber (s : JStr) : JsNum :=
  let t := trimJs s
  if t = [] then some 0
  else if t.head? = some '-' then (decLitVal? t.tail).map (fun q => -q)
  else if t.head? = some '+' then decLitVal? t.tail
  else decLitVal? t

/-- NaN-propagating multiplication by a constant. -/
def jsMulC (a : JsNum) (k : ℚ) : JsNum := a.map (· * k)

/-- NaN-propagating addition. -/
def jsAddN (a b : JsNum) : JsNum := a.bind (fun x => b.map (fun y => x + y))

/-- JS `<=` comparison: false whenever either side is `NaN`. -/
def jsLe (a b : JsNum) : Bool :=
  match a, b with
  | some x, some y => decide (x ≤ y)
  | _, _ => false

/-- JS `<` comparison: false whenever either side is `NaN`. -/
def jsLt (a b : JsNum) : Bool :=
  match a, b with
  | some x, some y => decide (x < y)
  | _, _ => false

/-- JS truncation toward zero (the integer part used by the `%` operator). -/
def jsTrunc (q : ℚ) : ℤ := if 0 ≤ q then ⌊q⌋ else -⌊-q⌋

/-- JS remainder operator `a % b`: `a - b * trunc (a / b)`. -/
def jsMod (a b : ℚ) : ℚ := a - b * jsTrunc (a / b)

/-- Decimal digit string of a natural number, as JS renders an integer. -/
def natDigits (n : ℕ) : List Char :=
  if _h : n < 10 then [Char.ofNat (48 + n)]
  else natDigits (n / 10) ++ [Char.ofNat (48 + n % 10)]
  termination_by n
  decreasing_by exact Nat.div_lt_self (by omega) (by omega)

/-- JS rendering `${i}` of an integer-valued number. -/
def intDigits (i : ℤ) : JStr :=
  if i < 0 then '-' :: natDigits i.natAbs else natDigits i.toNat

/-- Model of `String.prototype.padStart(2, "0")`. -/
def padStart2 (s : JStr) : JStr :=
  if 2 ≤ s.length then s else List.replicate (2 - s.length) '0' ++ s

/-- JS `Math.round`: half-way cases round toward `+∞`. -/
def jsRound (q : ℚ) : ℤ := ⌊q + 1 / 2⌋

/-! ## `videoPlayerUtils.ts` -/

/-- Seconds to auto-dismiss the proposition popup
(`export const DISMISS_AFTER = 8`). -/
def DISMISS_AFTER : ℚ := 8

/-- `parseTimestamp` from `videoPlayerUtils.ts`: try `Number(verifyAt)`
first; otherwise split on `":"`, map each part through `Number`, and
combine two parts as `m*60+s`, three as `h*3600+m*60+s`; any other part
count falls back to `0`.  The result is a JS number, so `none` is `NaN`. -/
def parseTimestamp (verifyAt : JStr) : JsNum :=
  match jsNumber verifyAt with
  | some num => some num
  | none =>
    match (splitOnChar ':' verifyAt).map jsNumber with
    | [a, b] => jsAddN (jsMulC a 60) b
    | [a, b, c] => jsAddN (jsAddN (jsMulC a 3600) (jsMulC b 60)) c
    | _ => some 0

/-- `formatTimestamp` from `videoPlayerUtils.ts`:
`m = Math.floor(seconds / 60)`, `s = Math.floor(seconds % 60)`,
rendered as `` `${m}:${String(s).padStart(2, "0")}` ``. -/
def formatTimestamp (seconds : ℚ) : JStr :=
  intDigits ⌊seconds / 60⌋ ++ ':' :: padStart2 (intDigits ⌊jsMod seconds 60⌋)

/-- `lerp` from `videoPlayerUtils.ts`: `start + (end - start) * t`. -/
def lerp (start «end» t : ℚ) : ℚ := start + («end» - start) * t

/-- `lerpChartValue` from `videoPlayerUtils.ts`: interpolate a chart value
where either endpoint may be `null` (modelled as `none`). -/
def lerpChartValue (start «end» : Option ℚ) (t : ℚ) : Option ℚ :=
  match start, «end» with
  | none, none => none
  | none, e => e
  | s, none => s
  | some s, some e => some (jsRound (lerp s e t))

/-! ## `VideoPlayer.tsx` — proposition trigger / popup dismiss state machine

Only the fields of a proposition that the player's handlers read are
modelled (`id`, `start`, `end`); the analysis payload rendered by the
popup plays no part in the triggering logic.  The component state below
covers the refs and state hooks the handlers touch; the playback
position itself lives in the `<video>` element and is passed to each
handler as `currentTime`. -/

/-- A proposition as consumed by the video player handlers:
`id`, `start` and `end` timestamps (strings from the backend). -/
structure Proposition where
  id : ℤ
  start : JStr
  «end» : JStr
  deriving DecidableEq, Repr

/-- The `VideoPlayer` component state touched by the handlers:
`triggeredRef` (a `Set<number>` of proposition ids), the active
proposition, popup visibility (state + mirror ref), the pending
auto-dismiss `setTimeout` (`none` = no timer, `some delay` = a pending
timer with that delay in milliseconds whose callback hides the popup),
and the sidebar-highlight / chart-window tracking state. -/
structure PlayerState where
  triggered : Finset ℤ
  activeProposition : Option Proposition
  popupVisible : Bool
  dismissTimer : Option ℚ
  activeSidebarId : Option ℤ
  visibleChartCount : ℕ
  deriving DecidableEq

/-- JS comparator `parseTimestamp(a.start) - parseTimestamp(b.start)`
used with `Array.prototype.sort`; when either timestamp is `NaN` the
comparator result is `NaN` and the relative order is unspecified, which
we model as "keep". -/
def propLe (a b : Proposition) : Bool :=
  match parseTimestamp a.start, parseTimestamp b.start with
  | some x, some y => decide (x ≤ y)
  | _, _ => true

/-- `sortedPropositions`: the propositions stably sorted by parsed start
time (the `useMemo` mirrored into `sortedPropositionsRef`). -/
def sortedPropositions (props : List Proposition) : List Proposition :=
  props.mergeSort propLe

/-- `updateTimeTracking`'s scan: walk the sorted list, and over the
leading run of propositions with `parseTimestamp(start) <= currentTime`
record the last one's id (`newActiveId`) and the run length
(`newCount`); the loop `break`s at the first proposition past
`currentTime`. -/
def trackLeading (sorted : List Proposition) (t : ℚ) : Option ℤ × ℕ :=
  match sorted with
  | [] => (none, 0)
  | p :: rest =>
    if jsLe (parseTimestamp p.start) (some t) then
      let r := trackLeading rest t
      (some (r.1.getD p.id), r.2 + 1)
    else (none, 0)

/-- `updateTimeTracking`: store the scan results into the sidebar
highlight id and visible chart count. -/
def updateTimeTracking (sorted : List Proposition) (t : ℚ) (st : PlayerState) : PlayerState :=
  let r := trackLeading sorted t
  { st with activeSidebarId := r.1, visibleChartCount := r.2 }

/-- The popup-activation loop of `handleTimeUpdate`: for each
proposition in (unsorted) store order, skip it if its id is already in
the triggered set; otherwise, if `currentTime` lies in
`[parseTimestamp(start), parseTimestamp(end)]`, add its id to the
triggered set, make it the active proposition, show the popup, replace
any pending dismiss timer with a fresh `DISMISS_AFTER * 1000` ms one,
and `break`. -/
def triggerScan (props : List Proposition) (t : ℚ) (st : PlayerState) : PlayerState :=
  match props with
  | [] => st
  | p :: rest =>
    if p.id ∈ st.triggered then triggerScan rest t st
    else if jsLe (parseTimestamp p.start) (some t) && jsLe (some t) (parseTimestamp p.«end») then
      { st with triggered := insert p.id st.triggered,
                activeProposition := some p,
                popupVisible := true,
                dismissTimer := some (DISMISS_AFTER * 1000) }
    else triggerScan rest t st

/-- `handleTimeUpdate`: bail out when there are no propositions (or no
video element / selection, which have no counterpart in this state);
otherwise run `updateTimeTracking` on the sorted list and then the
activation loop over the store-order list. -/
def handleTimeUpdate (props : List Proposition) (t : ℚ) (st : PlayerState) : PlayerState :=
  if props = [] then st
  else triggerScan props t (updateTimeTracking (sortedPropositions props) t st)

/-- `handleSeeked`: delete from the triggered set the id of every
proposition whose `parseTimestamp(start)` is strictly greater than the
current time, then refresh the tracking state. -/
def handleSeeked (props : List Proposition) (t : ℚ) (st : PlayerState) : PlayerState :=
  updateTimeTracking (sortedPropositions props) t
    { st with triggered :=
        ((sortedPropositions props).foldl
          (fun trig p => if jsLt (some t) (parseTimestamp p.start) then trig.erase p.id else trig)
          st.triggered) }

/-- `handleDismiss`: hide the popup and clear any pending dismiss timer. -/
def handleDismiss (st : PlayerState) : PlayerState :=
  { st with popupVisible := false, dismissTimer := none }

/-- `handlePause`: clear any pending dismiss timer. -/
def handlePause (st : PlayerState) : PlayerState :=
  { st with dismissTimer := none }

/-- `handlePlay`: if the popup is visible, replace any pending dismiss
timer with a fresh `DISMISS_AFTER * 1000` ms one. -/
def handlePlay (st : PlayerState) : PlayerState :=
  if st.popupVisible then { st with dismissTimer := some (DISMISS_AFTER * 1000) } else st

/-- `jumpToProposition`: re-arm the proposition (delete its id from the
triggered set), seek to its start and play (playback position is not
part of this state), show it in the popup, and replace any pending
dismiss timer with a fresh `DISMISS_AFTER * 1000` ms one. -/
def jumpToProposition (p : Proposition) (st : PlayerState) : PlayerState :=
  { st with triggered := st.triggered.erase p.id,
            activeProposition := some p,
            popupVisible := true,
            dismissTimer := some (DISMISS_AFTER * 1000) }

/-- The video-change `useEffect`: clear the triggered set, hide the
popup, reset tracking and interpolation state, and cancel any pending
dismiss timer. -/
def resetForVideoChange (_st : PlayerState) : PlayerState :=
  { triggered := ∅, activeProposition := none, popupVisible := false,
    dismissTimer := none, activeSidebarId := none, visibleChartCount := 0 }

/-- Firing of the scheduled dismiss `setTimeout`: its callback hides the
popup; the timer is then spent. -/
def fireDismissTimer (st : PlayerState) : PlayerState :=
  { st with popupVisible := false, dismissTimer := none }

/-- The first proposition in store order whose id is not yet triggered
and whose `[parseTimestamp(start), parseTimestamp(end)]` interval
contains `t` — the one `handleTimeUpdate`'s loop activates. -/
def firstActivatable (props : List Proposition) (trig : Finset ℤ) (t : ℚ) :
    Option Proposition :=
  props.find? (fun p =>
    decide (p.id ∉ trig) &&
      (jsLe (parseTimestamp p.start) (some t) && jsLe (some t) (parseTimestamp p.«end»)))

/-! ## `graph.tsx` — running-average graph -/

/-- One point of an organization's running-average series
(`RunningAvgPoint` in `graph.tsx`). -/
structure RunningAvgPoint where
  date : String
  truthIndex : ℚ
  cumulativeTrue : ℤ
  cumulativeDecided : ℤ
  deriving DecidableEq, Repr

/-- `Organization` in `graph.tsx`. -/
structure Organization where
  id : ℤ
  name : String
  deriving DecidableEq, Repr

/-- `OrgRunningAverage` in `graph.tsx`. -/
structure OrgRunningAverage where
  organization : Organization
  currentTruthIndex : ℚ
  series : List RunningAvgPoint
  deriving DecidableEq, Repr

/-- `TopOrgsRunningAvgResponse` in `graph.tsx`. -/
structure TopOrgsRunningAvgResponse where
  topN : ℤ
  organizations : List OrgRunningAverage
  deriving DecidableEq, Repr

/-- The `Graph` component state set by `fetchData`: the response in use,
the set of visible organization names, and the mock-data flag. -/
structure GraphState where
  response : Option TopOrgsRunningAvgResponse
  visibleOrgs : Finset String
  usingMock : Bool
  deriving DecidableEq

/-- Outcome of the `GET /stats/top-orgs-running-avg` request:
the request throws, or it resolves with `res.data` either absent or
present. -/
inductive FetchOutcome where
  | failure
  | success (data : Option TopOrgsRunningAvgResponse)
  deriving DecidableEq

/-- The catch-branch of `fetchData`: fall back to `mockGraphData`, mark
every mock organization visible, and set `usingMock`.  The contents of
`mockGraphData` live in `app/mockData`, outside the sources shown, so
the mock response is a parameter here. -/
def mockFallback (mock : TopOrgsRunningAvgResponse) : GraphState :=
  { response := some mock,
    visibleOrgs := (mock.organizations.map (fun o => o.organization.name)).toFinset,
    usingMock := true }

/-- `fetchData` in the `Graph` component: on a response with data and a
non-empty organizations list, adopt it and mark its organizations
visible (leaving `usingMock` false); otherwise (`throw` / missing data /
empty list) fall back to the mock. -/
def fetchData (mock : TopOrgsRunningAvgResponse) (outcome : FetchOutcome) : GraphState :=
  match outcome with
  | .success (some res) =>
    if res.organizations.length > 0 then
      { response := some res,
        visibleOrgs := (res.organizations.map (fun o => o.organization.name)).toFinset,
        usingMock := false }
    else mockFallback mock
  | _ => mockFallback mock

/-- The "Using mock data — API unavailable" badge is rendered exactly
when `usingMock` is set (`{usingMock && <Badge …>}`). -/
def rendersMockBadge (st : GraphState) : Bool := st.usingMock

/-- One cell of a merged chart row for one organization: the plotted
value `truthIndex * 100` (or `null`), plus the cumulative stats stashed
for the tooltip (`row[name]`, ``row[`${name}__true`]``,
``row[`${name}__decided`]``). -/
structure ChartCell where
  value : Option ℚ
  cumTrue : Option ℤ
  cumDecided : Option ℤ
  deriving DecidableEq, Repr

/-- Build a row cell from the carried `cur` point
(`row[name] = cur ? cur.truthIndex * 100 : null`, and the cumulative
stash fields). -/
def chartCellOf (cur : Option RunningAvgPoint) : ChartCell :=
  { value := cur.map (fun pt => pt.truthIndex * 100),
    cumTrue := cur.map (fun pt => pt.cumulativeTrue),
    cumDecided := cur.map (fun pt => pt.cumulativeDecided) }

/-- `dateIndex[d][name]` for one organization: the index assigns
`dateIndex[pt.date][name] = pt` for each series point in order, so a
lookup returns the last series point with that date, if any. -/
def seriesPointAt (org : OrgRunningAverage) (d : String) : Option RunningAvgPoint :=
  org.series.foldl (fun acc pt => if pt.date = d then some pt else acc) none

/-- `sortedDates`: the keys of `dateIndex` — the set of all series dates
across the organizations — sorted ascending
(`Object.keys(dateIndex).sort()`). -/
def chartDates (orgs : List OrgRunningAverage) : List String :=
  ((orgs.flatMap (fun o => o.series.map (fun pt => pt.date))).toFinset).sort (· ≤ ·)

/-- The per-organization slice of the row-building loop: walk the sorted
dates carrying `lastKnown[name]`; at each date, a point at exactly that
date (if any) replaces the carried point, and the row cell is built from
the carried point.  (`lastKnown` is keyed by organization name, so with
distinct names each organization's entry evolves independently.) -/
def orgColumnGo (org : OrgRunningAverage) (last : Option RunningAvgPoint) :
    List String → List ChartCell
  | [] => []
  | d :: ds =>
    let cur := match seriesPointAt org d with
      | some pt => some pt
      | none => last
    chartCellOf cur :: orgColumnGo org cur ds

/-- The column of row cells for one organization over the sorted dates
(`lastKnown[name]` starts absent). -/
def orgColumn (org : OrgRunningAverage) (dates : List String) : List ChartCell :=
  orgColumnGo org none dates

/-- Modelled from the spec: "the organization's most recent series point
at or before the row's date" — among the series points dated at or
before `d`, those of maximal date, the last such point in series order
(matching the index's last-write-wins on equal dates); `none` when the
organization has no point at or before `d`. -/
def mostRecentAtOrBefore (series : List RunningAvgPoint) (d : String) :
    Option RunningAvgPoint :=
  let le := series.filter (fun pt => decide (pt.date ≤ d))
  (le.filter (fun pt => decide (∀ q ∈ le, q.date ≤ pt.date))).getLast?

/-! ## `leaderboard.tsx` — Truth Index cell -/

/-- The leaderboard's Truth Index cell: a `null` value renders the
em-dash placeholder (`none`); otherwise the displayed percentage is
`Math.max(0, Math.min(100, value * 100))`. -/
def truthIndexCell (truthIndex : Option ℚ) : Option ℚ :=
  match truthIndex with
  | none => none
  | some value => some (max 0 (min 100 (value * 100)))

end Veritas

namespace Veritas

/-! ## Lemmas about the string/number primitives -/

theorem splitOnChar_ne_nil (c : Char) (l : List Char) : splitOnChar c l ≠ [] := by
  induction l with
  | nil => simp [splitOnChar]
  | cons x xs ih =>
    simp only [splitOnChar]
    rcases h : splitOnChar c xs with _ | ⟨hd, tl⟩
    · exact absurd h ih
    · by_cases hx : x = c <;> simp [hx]

theorem splitOnChar_not_mem {c : Char} : ∀ {l : List Char}, c ∉ l → splitOnChar c l = [l] := by
  intro l
  induction l with
  | nil => intro _; rfl
  | cons x xs ih =>
    intro h
    have hx : x ≠ c := fun hxc => h (hxc ▸ List.mem_cons_self x xs)
    simp only [splitOnChar, ih (fun hc => h (List.mem_cons_of_mem _ hc))]
    simp [hx]

theorem splitOnChar_append {c : Char} (b : List Char) :
    ∀ {a : List Char}, c ∉ a → splitOnChar c (a ++ c :: b) = a :: splitOnChar c b := by
  intro a
  induction a with
  | nil =>
    intro _
    simp only [List.nil_append, splitOnChar]
    rcases h : splitOnChar c b with _ | ⟨hd, tl⟩
    · exact absurd h (splitOnChar_ne_nil c b)
    · simp
  | cons x xs ih =>
    intro h
    have hx : x ≠ c := fun hxc => h (hxc ▸ List.mem_cons_self x xs)
    have hrec := ih (fun hc => h (List.mem_cons_of_mem _ hc))
    show splitOnChar c (x :: (xs ++ c :: b)) = (x :: xs) :: splitOnChar c b
    simp only [splitOnChar]
    rw [hrec]
    simp [hx]

theorem exists_mem_splitOnChar {c x : Char} (hne : x ≠ c) :
    ∀ {l : List Char}, x ∈ l → ∃ p ∈ splitOnChar c l, x ∈ p := by
  intro l
  induction l with
  | nil => intro h; exact absurd h (List.not_mem_nil x)
  | cons y ys ih =>
    intro h
    rcases hS : splitOnChar c ys with _ | ⟨hd, tl⟩
    · exact absurd hS (splitOnChar_ne_nil c ys)
    · rcases List.mem_cons.mp h with rfl | hmem
      · have hy : x ≠ c := hne
        refine ⟨x :: hd, ?_, List.mem_cons_self x hd⟩
        simp only [splitOnChar, hS]
        simp [hy]
      · obtain ⟨p, hp, hxp⟩ := ih hmem
        rw [hS] at hp
        simp only [splitOnChar, hS]
        by_cases hy : y = c
        · exact ⟨p, by simp [hy, List.mem_cons_of_mem _ hp], hxp⟩
        · rcases List.mem_cons.mp hp with rfl | hp'
          · exact ⟨y :: p, by simp [hy], List.mem_cons_of_mem _ hxp⟩
          · exact ⟨p, by simp [hy, List.mem_cons_of_mem _ hp'], hxp⟩

theorem mem_of_splitOnChar_length {c : Char} :
    ∀ {l : List Char}, 1 < (splitOnChar c l).length → c ∈ l := by
  intro l
  induction l with
  | nil => intro h; simp [splitOnChar] at h
  | cons x xs ih =>
    intro h
    by_cases hx : x = c
    · exact hx ▸ List.mem_cons_self x xs
    · rcases hS : splitOnChar c xs with _ | ⟨hd, tl⟩
      · exact absurd hS (splitOnChar_ne_nil c xs)
      · simp only [splitOnChar, hS] at h
        simp [hx] at h
        exact List.mem_cons_of_mem _ (ih (by rw [hS]; simpa using h))

theorem digit_char_isDigit {k : ℕ} (hk : k < 10) : (Char.ofNat (48 + k)).isDigit = true := by
  interval_cases k <;> decide

theorem digit_char_toNat {k : ℕ} (hk : k < 10) : (Char.ofNat (48 + k)).toNat = 48 + k := by
  interval_cases k <;> decide

theorem natDigits_ne_nil (n : ℕ) : natDigits n ≠ [] := by
  rw [natDigits]
  split_ifs <;> simp

theorem mem_natDigits_isDigit (n : ℕ) : ∀ c ∈ natDigits n, c.isDigit = true := by
  induction n using Nat.strong_induction_on with
  | _ n ih =>
    rw [natDigits]
    split_ifs with h
    · intro c hc
      rw [List.mem_singleton] at hc
      exact hc ▸ digit_char_isDigit h
    · intro c hc
      rcases List.mem_append.mp hc with hc' | hc'
      · exact ih (n / 10) (Nat.div_lt_self (by omega) (by omega)) c hc'
      · rw [List.mem_singleton] at hc'
        exact hc' ▸ digit_char_isDigit (Nat.mod_lt n (by omega))

theorem digitsValRaw_natDigits (n : ℕ) : digitsValRaw (natDigits n) = n := by
  induction n using Nat.strong_induction_on with
  | _ n ih =>
    rw [natDigits]
    split_ifs with h
    · simp [digitsValRaw, digit_char_toNat h]
    · have hrec := ih (n / 10) (Nat.div_lt_self (by omega) (by omega))
      unfold digitsValRaw at hrec ⊢
      rw [List.foldl_append, hrec]
      simp [digit_char_toNat (Nat.mod_lt n (show 0 < 10 by omega))]
      omega

theorem not_isJsSpace_of_isDigit {c : Char} (h : c.isDigit = true) : isJsSpace c = false := by
  cases hsp : isJsSpace c with
  | false => rfl
  | true =>
    exfalso
    have hcases : c = ' ' ∨ c = '\t' ∨ c = '\n' ∨ c = '\r' := by
      simpa [isJsSpace, or_assoc] using hsp
    rcases hcases with rfl | rfl | rfl | rfl <;> exact absurd h (by decide)

theorem isDigit_ne {c : Char} (h : c.isDigit = true) :
    c ≠ ':' ∧ c ≠ '.' ∧ c ≠ '-' ∧ c ≠ '+' := by
  refine ⟨?_, ?_, ?_, ?_⟩ <;> rintro rfl <;> exact absurd h (by decide)

theorem dropWhile_eq_self_of_false {p : Char → Bool} {l : List Char}
    (h : ∀ c ∈ l, p c = false) : l.dropWhile p = l := by
  cases l with
  | nil => rfl
  | cons x xs => simp [List.dropWhile_cons, h x (List.mem_cons_self x xs)]

theorem trimJs_eq_self {l : List Char} (h : ∀ c ∈ l, isJsSpace c = false) : trimJs l = l := by
  unfold trimJs
  rw [dropWhile_eq_self_of_false h,
    dropWhile_eq_self_of_false (fun c hc => h c (List.mem_reverse.mp hc)),
    List.reverse_reverse]

theorem mem_dropWhile_of_mem {p : Char → Bool} {x : Char} (hx : p x = false) :
    ∀ {l : List Char}, x ∈ l → x ∈ l.dropWhile p := by
  intro l
  induction l with
  | nil => intro h; exact absurd h (List.not_mem_nil x)
  | cons y ys ih =>
    intro h
    rw [List.dropWhile_cons]
    cases hpy : p y with
    | false => simpa [hpy] using h
    | true =>
      simp only [hpy, if_true]
      rcases List.mem_cons.mp h with rfl | hmem
      · exact absurd hpy (by simp [hx])
      · exact ih hmem

theorem mem_trimJs {x : Char} (hx : isJsSpace x = false) {l : List Char} (h : x ∈ l) :
    x ∈ trimJs l := by
  unfold trimJs
  exact List.mem_reverse.mpr
    (mem_dropWhile_of_mem hx (List.mem_reverse.mpr (mem_dropWhile_of_mem hx h)))

end Veritas

namespace Veritas

theorem digitsVal?_eq_some {cs : List Char} (hne : cs ≠ [])
    (hd : ∀ c ∈ cs, c.isDigit = true) : digitsVal? cs = some (digitsValRaw cs) := by
  unfold digitsVal?
  rw [if_pos ⟨hne, List.all_eq_true.mpr hd⟩]

theorem digitsVal?_eq_none_of_mem {cs : List Char} {x : Char} (hx : x ∈ cs)
    (h : x.isDigit = false) : digitsVal? cs = none := by
  unfold digitsVal?
  rw [if_neg]
  rintro ⟨-, hall⟩
  have := List.all_eq_true.mp hall x hx
  rw [h] at this
  exact Bool.false_ne_true this

theorem decLitVal?_digits {cs : List Char} (hne : cs ≠ [])
    (hd : ∀ c ∈ cs, c.isDigit = true) : decLitVal? cs = some ((digitsValRaw cs : ℚ)) := by
  have hdot : '.' ∉ cs := fun hmem => by
    have h1 := hd '.' hmem
    exact absurd h1 (by decide)
  unfold decLitVal?
  rw [splitOnChar_not_mem hdot]
  simp [digitsVal?_eq_some hne hd]

theorem decLitVal?_eq_none_of_colon {u : List Char} (h : ':' ∈ u) : decLitVal? u = none := by
  obtain ⟨p, hp, hxp⟩ := exists_mem_splitOnChar (show ':' ≠ '.' by decide) h
  rcases hS : splitOnChar '.' u with _ | ⟨a, _ | ⟨b, _ | _⟩⟩
  · exact absurd hS (splitOnChar_ne_nil '.' u)
  · rw [hS, List.mem_singleton] at hp
    subst hp
    simp [decLitVal?, hS, digitsVal?_eq_none_of_mem hxp (by decide)]
  · rw [hS] at hp
    have hnotall : ¬(a.all Char.isDigit = true ∧ b.all Char.isDigit = true) := by
      rintro ⟨ha, hb⟩
      rcases List.mem_cons.mp hp with rfl | hp'
      · have := List.all_eq_true.mp ha ':' hxp
        exact absurd this (by decide)
      · rw [List.mem_singleton] at hp'
        subst hp'
        have := List.all_eq_true.mp hb ':' hxp
        exact absurd this (by decide)
    simp only [decLitVal?, hS]
    by_cases h1 : a = [] ∧ b = []
    · rw [if_pos h1]
    · rw [if_neg h1, if_neg hnotall]
  · simp [decLitVal?, hS]

theorem jsNumber_eq_none_of_colon {s : List Char} (h : ':' ∈ s) : jsNumber s = none := by
  have hs : ':' ∈ trimJs s := mem_trimJs (by decide) h
  have hne : trimJs s ≠ [] := List.ne_nil_of_mem hs
  unfold jsNumber
  simp only []
  rw [if_neg hne]
  rcases ht : trimJs s with _ | ⟨c, r⟩
  · exact absurd (ht ▸ hne) (fun hf => hf rfl)
  · rw [ht] at hs
    by_cases hc1 : c = '-'
    · subst hc1
      have hr : ':' ∈ r := by
        rcases List.mem_cons.mp hs with hceq | hr
        · exact absurd hceq.symm (by decide)
        · exact hr
      simp [decLitVal?_eq_none_of_colon hr]
    · by_cases hc2 : c = '+'
      · subst hc2
        have hr : ':' ∈ r := by
          rcases List.mem_cons.mp hs with hceq | hr
          · exact absurd hceq.symm (by decide)
          · exact hr
        simp [hc1, decLitVal?_eq_none_of_colon hr]
      · simp [hc1, hc2, decLitVal?_eq_none_of_colon hs]

theorem jsNumber_digits {cs : List Char} (hne : cs ≠ [])
    (hd : ∀ c ∈ cs, c.isDigit = true) : jsNumber cs = some ((digitsValRaw cs : ℚ)) := by
  have htrim : trimJs cs = cs :=
    trimJs_eq_self (fun c hc => not_isJsSpace_of_isDigit (hd c hc))
  unfold jsNumber
  simp only []
  rw [htrim, if_neg hne]
  rcases cs with _ | ⟨c, r⟩
  · exact absurd rfl hne
  · have hdc := hd c (List.mem_cons_self c r)
    obtain ⟨-, -, hminus, hplus⟩ := isDigit_ne hdc
    simp only [List.head?, List.tail]
    rw [if_neg (by simpa using hminus), if_neg (by simpa using hplus)]
    exact decLitVal?_digits hne hd

theorem digitsValRaw_replicate_zero (cs : List Char) (m : ℕ) :
    digitsValRaw (List.replicate m '0' ++ cs) = digitsValRaw cs := by
  unfold digitsValRaw
  rw [List.foldl_append]
  have hz : List.foldl (fun a c => 10 * a + (c.toNat - 48)) 0 (List.replicate m '0') = 0 := by
    induction m with
    | zero => rfl
    | succ k ih =>
      rw [List.replicate_succ, List.foldl_cons]
      simpa using ih
  rw [hz]

theorem jsNumber_padStart2_digits {cs : List Char} (hne : cs ≠ [])
    (hd : ∀ c ∈ cs, c.isDigit = true) :
    jsNumber (padStart2 cs) = some ((digitsValRaw cs : ℚ)) := by
  unfold padStart2
  split_ifs with hlen
  · exact jsNumber_digits hne hd
  · have hne' : List.replicate (2 - cs.length) '0' ++ cs ≠ [] := by
      simp [hne]
    have hd' : ∀ c ∈ List.replicate (2 - cs.length) '0' ++ cs, c.isDigit = true := by
      intro c hc
      rcases List.mem_append.mp hc with hc' | hc'
      · rw [List.eq_of_mem_replicate hc']
        decide
      · exact hd c hc'
    rw [jsNumber_digits hne' hd', digitsValRaw_replicate_zero]

theorem natDigits_colon_not_mem (n : ℕ) : ':' ∉ natDigits n := fun hmem =>
  absurd (mem_natDigits_isDigit n ':' hmem) (by decide)

theorem padStart2_natDigits_colon_not_mem (n : ℕ) : ':' ∉ padStart2 (natDigits n) := by
  unfold padStart2
  split_ifs
  · exact natDigits_colon_not_mem n
  · intro hmem
    rcases List.mem_append.mp hmem with hc' | hc'
    · exact absurd (List.eq_of_mem_replicate hc') (by decide)
    · exact natDigits_colon_not_mem n hc'

theorem intDigits_natCast (k : ℕ) : intDigits (k : ℤ) = natDigits k := by
  unfold intDigits
  rw [if_neg (by omega)]
  simp

end Veritas

namespace Veritas

/-- Helper: `formatTimestamp` on a whole number of seconds renders the
digit string of `s / 60`, a colon, and the two-digit-padded digit string
of `s % 60`. -/
theorem formatTimestamp_natCast (n : ℕ) :
    formatTimestamp (n : ℚ) = natDigits (n / 60) ++ ':' :: padStart2 (natDigits (n % 60)) := by
  have h1 : ⌊(n : ℚ) / 60⌋ = ((n / 60 : ℕ) : ℤ) := by
    have h := Rat.floor_intCast_div_natCast (n : ℤ) 60
    push_cast at h
    rw [h]
    omega
  have htr : jsTrunc ((n : ℚ) / 60) = ((n / 60 : ℕ) : ℤ) := by
    unfold jsTrunc
    rw [if_pos (by positivity)]
    exact h1
  have h2 : ⌊jsMod (n : ℚ) 60⌋ = ((n % 60 : ℕ) : ℤ) := by
    unfold jsMod
    rw [htr]
    have hmod : (n : ℚ) - 60 * (((n / 60 : ℕ) : ℤ) : ℚ) = ((n % 60 : ℕ) : ℚ) := by
      have hn : ((60 * (n / 60) + n % 60 : ℕ) : ℚ) = (n : ℚ) := by
        rw [Nat.div_add_mod]
      rw [Int.cast_natCast]
      push_cast at hn
      linarith
    rw [hmod, Int.floor_natCast]
  unfold formatTimestamp
  rw [h1, h2, intDigits_natCast, intDigits_natCast]

/-- C4: for every non-negative integer number of seconds `s`,
`formatTimestamp` renders `s` as `"m:ss"` with `m = s / 60` and the
remainder `s % 60` zero-padded to two digits, and
`parseTimestamp (formatTimestamp s) = s`. -/
theorem C4_formatTimestamp_parseTimestamp_roundtrip (s : ℕ) :
    formatTimestamp (s : ℚ) = natDigits (s / 60) ++ ':' :: padStart2 (natDigits (s % 60)) ∧
    parseTimestamp (formatTimestamp (s : ℚ)) = some (s : ℚ) := by
  refine ⟨formatTimestamp_natCast s, ?_⟩
  rw [formatTimestamp_natCast s]
  have hcolon : ':' ∈ natDigits (s / 60) ++ ':' :: padStart2 (natDigits (s % 60)) :=
    List.mem_append_right _ (List.mem_cons_self _ _)
  have hnone := jsNumber_eq_none_of_colon hcolon
  have hsplit : splitOnChar ':' (natDigits (s / 60) ++ ':' :: padStart2 (natDigits (s % 60)))
      = [natDigits (s / 60), padStart2 (natDigits (s % 60))] := by
    rw [splitOnChar_append _ (natDigits_colon_not_mem _),
        splitOnChar_not_mem (padStart2_natDigits_colon_not_mem _)]
  have hAval : jsNumber (natDigits (s / 60)) = some ((s / 60 : ℕ) : ℚ) := by
    rw [jsNumber_digits (natDigits_ne_nil _) (mem_natDigits_isDigit _), digitsValRaw_natDigits]
  have hBval : jsNumber (padStart2 (natDigits (s % 60))) = some ((s % 60 : ℕ) : ℚ) := by
    rw [jsNumber_padStart2_digits (natDigits_ne_nil _) (mem_natDigits_isDigit _),
        digitsValRaw_natDigits]
  simp only [parseTimestamp, hnone, hsplit, List.map_cons, List.map_nil, hAval, hBval]
  simp only [jsMulC, jsAddN, Option.map_some', Option.some_bind]
  have hn : ((60 * (s / 60) + s % 60 : ℕ) : ℚ) = (s : ℚ) := by rw [Nat.div_add_mod]
  push_cast at hn
  simp only [Option.some.injEq]
  linarith

/-- C5: `lerpChartValue` returns `null` only when both endpoints are
`null`, returns the other endpoint when exactly one is `null`, and
otherwise returns the rounded linear interpolation
`round(start + (end - start) * t)`; in particular
`lerpChartValue x x t = round x` for every `t`. -/
theorem C5_lerpChartValue_cases :
    (∀ t : ℚ, lerpChartValue none none t = none) ∧
    (∀ e t : ℚ, lerpChartValue none (some e) t = some e) ∧
    (∀ s t : ℚ, lerpChartValue (some s) none t = some s) ∧
    (∀ s e t : ℚ, lerpChartValue (some s) (some e) t
      = some ((jsRound (s + (e - s) * t) : ℤ) : ℚ)) ∧
    (∀ x t : ℚ, lerpChartValue (some x) (some x) t = some ((jsRound x : ℤ) : ℚ)) := by
  refine ⟨fun t => rfl, fun e t => rfl, fun s t => rfl, fun s e t => rfl, fun x t => ?_⟩
  show some ((jsRound (lerp x x t) : ℤ) : ℚ) = some ((jsRound x : ℤ) : ℚ)
  rw [show lerp x x t = x by unfold lerp; ring]

/-- C10: `parseTimestamp` is not total over its documented behaviour:
on the non-numeric input `"a:b"`, which splits on `":"` into two
non-numeric fields, it returns `NaN` rather than a number of seconds or
the fallback `0`; more generally any input splitting into two or three
fields one of which is non-numeric yields `NaN`, and a non-numeric input
reaches the `0` fallback exactly when it splits on `":"` into neither
two nor three parts. -/
theorem C10_parseTimestamp_not_total :
    parseTimestamp ('a' :: ':' :: ['b']) = none ∧
    (∀ s : JStr, ((splitOnChar ':' s).length = 2 ∨ (splitOnChar ':' s).length = 3) →
      none ∈ (splitOnChar ':' s).map jsNumber → parseTimestamp s = none) ∧
    (∀ s : JStr, jsNumber s = none → (splitOnChar ':' s).length ≠ 2 →
      (splitOnChar ':' s).length ≠ 3 → parseTimestamp s = some 0) := by
  refine ⟨by decide, ?_, ?_⟩
  · intro s hlen hnan
    have hcol : ':' ∈ s := mem_of_splitOnChar_length (by omega)
    have hnone := jsNumber_eq_none_of_colon hcol
    rcases hS : splitOnChar ':' s with _ | ⟨a, _ | ⟨b, _ | ⟨c, _ | ⟨d, rest⟩⟩⟩⟩ <;>
      rw [hS] at hlen <;> simp only [List.length] at hlen
    · omega
    · omega
    · rw [hS] at hnan
      simp only [List.map_cons, List.map_nil] at hnan
      simp only [parseTimestamp, hnone, hS, List.map_cons, List.map_nil]
      rcases List.mem_cons.mp hnan with ha | hb
      · rw [← ha]
        rfl
      · rw [List.mem_singleton] at hb
        rw [← hb]
        cases h : jsNumber a <;> simp [jsMulC, jsAddN]
    · rw [hS] at hnan
      simp only [List.map_cons, List.map_nil] at hnan
      simp only [parseTimestamp, hnone, hS, List.map_cons, List.map_nil]
      rcases List.mem_cons.mp hnan with ha | hbc
      · rw [← ha]
        rfl
      · rcases List.mem_cons.mp hbc with hb | hc
        · rw [← hb]
          cases h : jsNumber a <;> simp [jsMulC, jsAddN]
        · rw [List.mem_singleton] at hc
          rw [← hc]
          cases h : jsNumber a <;> cases h' : jsNumber b <;> simp [jsMulC, jsAddN]
    · omega
  · intro s hnone h2 h3
    rcases hS : splitOnChar ':' s with _ | ⟨a, _ | ⟨b, _ | ⟨c, _ | ⟨d, rest⟩⟩⟩⟩
    · exact absurd hS (splitOnChar_ne_nil _ _)
    · simp [parseTimestamp, hnone, hS]
    · rw [hS] at h2; simp at h2
    · rw [hS] at h3; simp at h3
    · simp [parseTimestamp, hnone, hS]

/-- Witness for C10 at concrete inputs: `"1:z"` parses to `NaN` and the
one-part non-numeric `"x"` takes the `0` fallback. -/
theorem C10_parseTimestamp_not_total_witness :
    parseTimestamp ('1' :: ':' :: ['z']) = none ∧ parseTimestamp ['x'] = some 0 :=
  ⟨C10_parseTimestamp_not_total.2.1 _ (Or.inl (by decide)) (by decide),
   C10_parseTimestamp_not_total.2.2 _ (by decide) (by decide) (by decide)⟩

end Veritas

namespace Veritas

theorem updateTimeTracking_triggered (l : List Proposition) (t : ℚ) (st : PlayerState) :
    (updateTimeTracking l t st).triggered = st.triggered := rfl

theorem updateTimeTracking_popupVisible (l : List Proposition) (t : ℚ) (st : PlayerState) :
    (updateTimeTracking l t st).popupVisible = st.popupVisible := rfl

theorem updateTimeTracking_activeProposition (l : List Proposition) (t : ℚ) (st : PlayerState) :
    (updateTimeTracking l t st).activeProposition = st.activeProposition := rfl

theorem updateTimeTracking_dismissTimer (l : List Proposition) (t : ℚ) (st : PlayerState) :
    (updateTimeTracking l t st).dismissTimer = st.dismissTimer := rfl

theorem triggerScan_of_firstActivatable_none (props : List Proposition) (t : ℚ)
    (st : PlayerState) (h : firstActivatable props st.triggered t = none) :
    triggerScan props t st = st := by
  rw [firstActivatable, List.find?_eq_none] at h
  induction props with
  | nil => rfl
  | cons q rest ih =>
    have hq := h q (List.mem_cons_self q rest)
    simp only [Bool.and_eq_true, decide_eq_true_eq, not_and] at hq
    rw [triggerScan]
    by_cases hmem : q.id ∈ st.triggered
    · rw [if_pos hmem]
      exact ih (fun x hx => h x (List.mem_cons_of_mem _ hx))
    · rw [if_neg hmem]
      have hcond : ¬(jsLe (parseTimestamp q.start) (some t)
          && jsLe (some t) (parseTimestamp q.«end»)) = true := by
        intro hc
        rw [Bool.and_eq_true] at hc
        exact (by simpa [hc.1, hc.2] using hq hmem)
      rw [if_neg hcond]
      exact ih (fun x hx => h x (List.mem_cons_of_mem _ hx))

theorem triggerScan_of_firstActivatable_some (props : List Proposition) (t : ℚ)
    (st : PlayerState) (p : Proposition)
    (h : firstActivatable props st.triggered t = some p) :
    triggerScan props t st =
      { st with triggered := insert p.id st.triggered,
                activeProposition := some p,
                popupVisible := true,
                dismissTimer := some (DISMISS_AFTER * 1000) } := by
  induction props with
  | nil => simp [firstActivatable] at h
  | cons q rest ih =>
    rw [firstActivatable, List.find?_cons] at h
    cases hpred : (decide (q.id ∉ st.triggered) &&
        (jsLe (parseTimestamp q.start) (some t) && jsLe (some t) (parseTimestamp q.«end»))) with
    | true =>
      rw [hpred] at h
      simp only [Option.some.injEq] at h
      subst h
      simp only [Bool.and_eq_true, decide_eq_true_eq] at hpred
      rw [triggerScan, if_neg hpred.1, if_pos (by rw [Bool.and_eq_true]; exact hpred.2)]
    | false =>
      rw [hpred] at h
      have hrest : firstActivatable rest st.triggered t = some p := h
      rw [triggerScan]
      by_cases hmem : q.id ∈ st.triggered
      · rw [if_pos hmem]
        exact ih hrest
      · rw [if_neg hmem]
        have hcond : ¬(jsLe (parseTimestamp q.start) (some t)
            && jsLe (some t) (parseTimestamp q.«end»)) = true := by
          intro hc
          simp [hc, hmem] at hpred
        rw [if_neg hcond]
        exact ih hrest

end Veritas

namespace Veritas

/-- C1: a single call to `handleTimeUpdate` activates at most one
proposition — exactly the first one in the list whose id is not yet
triggered and whose `[parseTimestamp(start), parseTimestamp(end)]`
interval contains `t` (`firstActivatable`).  When it exists, its id is
added to the triggered set and the popup is shown; when it does not,
the triggered set, popup visibility and active proposition are
unchanged; and a proposition whose id is already triggered is never the
activated one. -/
theorem C1_handleTimeUpdate_activates_first (props : List Proposition) (t : ℚ) (st : PlayerState) :
    (firstActivatable props st.triggered t = none →
      (handleTimeUpdate props t st).triggered = st.triggered ∧
      (handleTimeUpdate props t st).popupVisible = st.popupVisible ∧
      (handleTimeUpdate props t st).activeProposition = st.activeProposition) ∧
    (∀ p : Proposition, firstActivatable props st.triggered t = some p →
      p.id ∉ st.triggered ∧
      jsLe (parseTimestamp p.start) (some t) = true ∧
      jsLe (some t) (parseTimestamp p.«end») = true ∧
      (handleTimeUpdate props t st).triggered = insert p.id st.triggered ∧
      (handleTimeUpdate props t st).popupVisible = true ∧
      (handleTimeUpdate props t st).activeProposition = some p) ∧
    (∀ p ∈ props, p.id ∈ st.triggered → firstActivatable props st.triggered t ≠ some p) := by
  refine ⟨?_, ?_, ?_⟩
  · intro h
    by_cases hprops : props = []
    · subst hprops
      rw [handleTimeUpdate, if_pos rfl]
      exact ⟨rfl, rfl, rfl⟩
    · rw [handleTimeUpdate, if_neg hprops]
      have h' : firstActivatable props
          (updateTimeTracking (sortedPropositions props) t st).triggered t = none := h
      rw [triggerScan_of_firstActivatable_none _ _ _ h']
      exact ⟨rfl, rfl, rfl⟩
  · intro p h
    have hpred := List.find?_some h
    simp only [Bool.and_eq_true, decide_eq_true_eq] at hpred
    have hprops : props ≠ [] := by
      rintro rfl
      simp [firstActivatable] at h
    rw [handleTimeUpdate, if_neg hprops]
    have h' : firstActivatable props
        (updateTimeTracking (sortedPropositions props) t st).triggered t = some p := h
    rw [triggerScan_of_firstActivatable_some _ _ _ _ h']
    exact ⟨hpred.1, hpred.2.1, hpred.2.2, rfl, rfl, rfl⟩
  · intro p _hp hmem h
    have hpred := List.find?_some h
    simp only [Bool.and_eq_true, decide_eq_true_eq] at hpred
    exact hpred.1 hmem

/-- Witness for C1: with one proposition spanning `[5, 9]` and `t = 6`,
the call triggers it, shows the popup and makes it active. -/
theorem C1_handleTimeUpdate_activates_first_witness :
    (handleTimeUpdate [⟨1, ['5'], ['9']⟩] 6 ⟨∅, none, false, none, none, 0⟩).triggered
        = insert 1 (⟨∅, none, false, none, none, 0⟩ : PlayerState).triggered ∧
    (handleTimeUpdate [⟨1, ['5'], ['9']⟩] 6 ⟨∅, none, false, none, none, 0⟩).popupVisible = true ∧
    (handleTimeUpdate [⟨1, ['5'], ['9']⟩] 6 ⟨∅, none, false, none, none, 0⟩).activeProposition
        = some ⟨1, ['5'], ['9']⟩ :=
  ((C1_handleTimeUpdate_activates_first [⟨1, ['5'], ['9']⟩] 6 ⟨∅, none, false, none, none, 0⟩).2.1
    ⟨1, ['5'], ['9']⟩ (by decide)).2.2.2

end Veritas

namespace Veritas

theorem mem_foldl_erase (t : ℚ) :
    ∀ (l : List Proposition) (trig : Finset ℤ) (x : ℤ),
    (x ∈ l.foldl (fun tr p =>
        if jsLt (some t) (parseTimestamp p.start) then tr.erase p.id else tr) trig
      ↔ x ∈ trig ∧ ∀ p ∈ l, jsLt (some t) (parseTimestamp p.start) = true → p.id ≠ x) := by
  intro l
  induction l with
  | nil => simp
  | cons q rest ih =>
    intro trig x
    rw [List.foldl_cons]
    by_cases hq : jsLt (some t) (parseTimestamp q.start) = true
    · rw [if_pos hq, ih]
      simp only [Finset.mem_erase, List.mem_cons]
      constructor
      · rintro ⟨⟨hxq, hx⟩, hrest⟩
        refine ⟨hx, ?_⟩
        rintro p (rfl | hp) hlate
        · exact fun hid => hxq hid.symm
        · exact hrest p hp hlate
      · rintro ⟨hx, hall⟩
        refine ⟨⟨fun hxq => hall q (Or.inl rfl) hq hxq.symm, hx⟩, ?_⟩
        intro p hp hlate
        exact hall p (Or.inr hp) hlate
    · rw [if_neg hq, ih]
      simp only [List.mem_cons]
      constructor
      · rintro ⟨hx, hrest⟩
        refine ⟨hx, ?_⟩
        rintro p (rfl | hp) hlate
        · exact absurd hlate hq
        · exact hrest p hp hlate
      · rintro ⟨hx, hall⟩
        exact ⟨hx, fun p hp hlate => hall p (Or.inr hp) hlate⟩

/-- C3: after `handleSeeked` at time `t` (with distinct proposition
ids), no proposition whose `parseTimestamp(start)` is strictly greater
than `t` remains in the triggered set, while every proposition not past
`t` keeps its triggered status. -/
theorem C3_handleSeeked_rearms_later (props : List Proposition) (t : ℚ) (st : PlayerState)
    (hids : (props.map (fun p => p.id)).Nodup) :
    (∀ p ∈ props, jsLt (some t) (parseTimestamp p.start) = true →
      p.id ∉ (handleSeeked props t st).triggered) ∧
    (∀ p ∈ props, jsLt (some t) (parseTimestamp p.start) = false →
      (p.id ∈ (handleSeeked props t st).triggered ↔ p.id ∈ st.triggered)) := by
  have hperm : List.Perm (sortedPropositions props) props := List.mergeSort_perm props propLe
  have hids' : ((sortedPropositions props).map (fun p => p.id)).Nodup :=
    ((hperm.map (fun p => p.id)).nodup_iff).mpr hids
  have htrig : (handleSeeked props t st).triggered =
      (sortedPropositions props).foldl (fun tr p =>
        if jsLt (some t) (parseTimestamp p.start) then tr.erase p.id else tr) st.triggered := rfl
  constructor
  · intro p hp hlate
    rw [htrig, mem_foldl_erase]
    rintro ⟨-, hall⟩
    exact hall p (List.mem_mergeSort.mpr hp) hlate rfl
  · intro p hp hnotlate
    rw [htrig, mem_foldl_erase]
    constructor
    · rintro ⟨hx, -⟩
      exact hx
    · intro hx
      refine ⟨hx, ?_⟩
      intro q hq hqlate hqid
      have hq' : q ∈ props := List.mem_mergeSort.mp hq
      have : q = p := List.inj_on_of_nodup_map hids hq' hp hqid
      subst this
      exact absurd hqlate (by rw [hnotlate]; exact Bool.false_ne_true)

/-- Witness for C3: seeking back to `t = 5` with both propositions
triggered re-arms the one starting at 30 and keeps the one starting
at 0. -/
theorem C3_handleSeeked_rearms_later_witness :
    ((2 : ℤ) ∉ (handleSeeked [⟨1, ['0'], ['2']⟩, ⟨2, ['3','0'], ['3','2']⟩] 5
        ⟨{1, 2}, none, false, none, none, 0⟩).triggered) ∧
    ((1 : ℤ) ∈ (handleSeeked [⟨1, ['0'], ['2']⟩, ⟨2, ['3','0'], ['3','2']⟩] 5
        ⟨{1, 2}, none, false, none, none, 0⟩).triggered ↔
      (1 : ℤ) ∈ (⟨{1, 2}, none, false, none, none, 0⟩ : PlayerState).triggered) :=
  ⟨(C3_handleSeeked_rearms_later [⟨1, ['0'], ['2']⟩, ⟨2, ['3','0'], ['3','2']⟩] 5
      ⟨{1, 2}, none, false, none, none, 0⟩ (by decide)).1
      ⟨2, ['3','0'], ['3','2']⟩ (by decide) (by decide),
   (C3_handleSeeked_rearms_later [⟨1, ['0'], ['2']⟩, ⟨2, ['3','0'], ['3','2']⟩] 5
      ⟨{1, 2}, none, false, none, none, 0⟩ (by decide)).2
      ⟨1, ['0'], ['2']⟩ (by decide) (by decide)⟩

end Veritas

namespace Veritas

/-- C2: whenever the popup is shown (by `handleTimeUpdate` activation or
by `jumpToProposition`) a dismiss timer of `DISMISS_AFTER * 1000 = 8000`
milliseconds is scheduled whose firing hides the popup; pausing,
manually dismissing, or changing the selected video clears any pending
timer; and resuming play with a visible popup re-schedules a fresh
8-second timer. -/
theorem C2_dismiss_timer_lifecycle :
    DISMISS_AFTER * 1000 = 8000 ∧
    (∀ (props : List Proposition) (t : ℚ) (st : PlayerState) (p : Proposition),
      firstActivatable props st.triggered t = some p →
      (handleTimeUpdate props t st).popupVisible = true ∧
      (handleTimeUpdate props t st).dismissTimer = some 8000) ∧
    (∀ (p : Proposition) (st : PlayerState),
      (jumpToProposition p st).popupVisible = true ∧
      (jumpToProposition p st).dismissTimer = some 8000) ∧
    (∀ st : PlayerState, (fireDismissTimer st).popupVisible = false ∧
      (fireDismissTimer st).dismissTimer = none) ∧
    (∀ st : PlayerState, (handlePause st).dismissTimer = none) ∧
    (∀ st : PlayerState, (handleDismiss st).dismissTimer = none ∧
      (handleDismiss st).popupVisible = false) ∧
    (∀ st : PlayerState, (resetForVideoChange st).dismissTimer = none ∧
      (resetForVideoChange st).triggered = ∅) ∧
    (∀ st : PlayerState, st.popupVisible = true →
      (handlePlay st).dismissTimer = some 8000) := by
  have h8 : DISMISS_AFTER * 1000 = 8000 := by norm_num [DISMISS_AFTER]
  refine ⟨h8, ?_, ?_, fun st => ⟨rfl, rfl⟩, fun st => rfl, fun st => ⟨rfl, rfl⟩,
    fun st => ⟨rfl, rfl⟩, ?_⟩
  · intro props t st p h
    have hprops : props ≠ [] := by
      rintro rfl
      simp [firstActivatable] at h
    rw [handleTimeUpdate, if_neg hprops]
    have h' : firstActivatable props
        (updateTimeTracking (sortedPropositions props) t st).triggered t = some p := h
    rw [triggerScan_of_firstActivatable_some _ _ _ _ h']
    exact ⟨rfl, by rw [← h8]⟩
  · intro p st
    exact ⟨rfl, by show some (DISMISS_AFTER * 1000) = some 8000; rw [h8]⟩
  · intro st hvis
    rw [handlePlay, if_pos hvis]
    show some (DISMISS_AFTER * 1000) = some 8000
    rw [h8]

/-- Witness for C2: a concrete activation schedules the 8000 ms timer,
and `handlePlay` on a state with a visible popup re-schedules it. -/
theorem C2_dismiss_timer_lifecycle_witness :
    (handleTimeUpdate [⟨1, ['5'], ['9']⟩] 6 ⟨∅, none, false, none, none, 0⟩).dismissTimer
        = some 8000 ∧
    (handlePlay ⟨∅, none, true, none, none, 0⟩).dismissTimer = some 8000 :=
  ⟨(C2_dismiss_timer_lifecycle.2.1 [⟨1, ['5'], ['9']⟩] 6 ⟨∅, none, false, none, none, 0⟩
      ⟨1, ['5'], ['9']⟩ (by decide)).2,
   C2_dismiss_timer_lifecycle.2.2.2.2.2.2.2 ⟨∅, none, true, none, none, 0⟩ rfl⟩

end Veritas

namespace Veritas

/-- C6: when the `/stats/top-orgs-running-avg` request throws, returns no
data, or returns an empty organizations list, `fetchData` makes the
state exactly the mock fallback — `mockGraphData` as the response, every
mock organization name visible, `usingMock` set (so the mock badge is
rendered); when it succeeds with a non-empty list, the fetched response
is adopted and `usingMock` stays false. -/
theorem C6_graph_mock_fallback (mock : TopOrgsRunningAvgResponse) :
    (∀ outcome : FetchOutcome,
      (match outcome with
       | FetchOutcome.success (some res) => res.organizations = []
       | _ => True) →
      fetchData mock outcome = mockFallback mock ∧
      (fetchData mock outcome).response = some mock ∧
      (fetchData mock outcome).usingMock = true ∧
      rendersMockBadge (fetchData mock outcome) = true ∧
      ∀ o ∈ mock.organizations, o.organization.name ∈ (fetchData mock outcome).visibleOrgs) ∧
    (∀ res : TopOrgsRunningAvgResponse, res.organizations ≠ [] →
      fetchData mock (FetchOutcome.success (some res)) =
        { response := some res,
          visibleOrgs := (res.organizations.map (fun o => o.organization.name)).toFinset,
          usingMock := false } ∧
      (fetchData mock (FetchOutcome.success (some res))).usingMock = false) := by
  constructor
  · intro outcome hcond
    have hfall : fetchData mock outcome = mockFallback mock := by
      cases outcome with
      | failure => rfl
      | success data =>
        cases data with
        | none => rfl
        | some res =>
          have hres : res.organizations = [] := hcond
          simp [fetchData, hres]
    refine ⟨hfall, ?_, ?_, ?_, ?_⟩ <;> rw [hfall]
    · rfl
    · rfl
    · rfl
    · intro o ho
      show o.organization.name ∈ (mockFallback mock).visibleOrgs
      rw [mockFallback]
      simp only [List.mem_toFinset, List.mem_map]
      exact ⟨o, ho, rfl⟩
  · intro res hres
    have hpos : res.organizations.length > 0 := List.length_pos.mpr hres
    constructor
    · simp [fetchData, hpos]
    · simp [fetchData, hpos]

/-- C7: a null truth index renders the em-dash placeholder; a non-null
one renders `max(0, min(100, truthIndex * 100))`, and under the
glossary's promise `truthIndex ∈ [0, 1]` the clamp is the identity, so
the displayed percentage equals `truthIndex * 100`. -/
theorem C7_truthIndexCell_clamped (v : ℚ) :
    truthIndexCell none = none ∧
    truthIndexCell (some v) = some (max 0 (min 100 (v * 100))) ∧
    (0 ≤ v → v ≤ 1 → truthIndexCell (some v) = some (v * 100)) := by
  refine ⟨rfl, rfl, fun h0 h1 => ?_⟩
  show some (max 0 (min 100 (v * 100))) = some (v * 100)
  rw [min_eq_right (by linarith), max_eq_right (by positivity)]

/-- Witness for C7: at `truthIndex = 1/2` the clamp is the identity. -/
theorem C7_truthIndexCell_clamped_witness : truthIndexCell (some (1/2 : ℚ)) = some ((1/2 : ℚ) * 100) :=
  (C7_truthIndexCell_clamped (1/2)).2.2 (by norm_num) (by norm_num)

/-- Counterexample to C8 as stated: the leaderboard Truth Index cell does
clamp — at the received value `3/2` it displays `100`, not the received
value converted to a percentage (`150`). -/
theorem C8_dto_unmodified_counterexample :
    truthIndexCell (some ((3 : ℚ)/2)) ≠ some ((3 : ℚ)/2 * 100) := by
  show some (max 0 (min 100 ((3 : ℚ)/2 * 100))) ≠ some ((3 : ℚ)/2 * 100)
  rw [Ne, Option.some.injEq]
  norm_num

/-- C8 (amended): apart from optional-field fallback display, the only
modification the leaderboard applies to a received truth index beyond
the percentage conversion is the clamp into `[0, 100]`, and that clamp
is the identity exactly for values in the documented `[0, 1]` range. -/
theorem C8_dto_unmodified_amended :
    truthIndexCell none = none ∧
    (∀ v : ℚ, truthIndexCell (some v) = some (max 0 (min 100 (v * 100)))) ∧
    (∀ v : ℚ, truthIndexCell (some v) = some (v * 100) ↔ 0 ≤ v ∧ v ≤ 1) := by
  refine ⟨rfl, fun v => rfl, fun v => ?_⟩
  constructor
  · intro h
    have h' : max 0 (min 100 (v * 100)) = v * 100 := by
      have := h
      rwa [truthIndexCell, Option.some.injEq] at this
    have hge : (0 : ℚ) ≤ v * 100 := h' ▸ le_max_left _ _
    have hle : v * 100 ≤ 100 := by
      have hmax : max 0 (min 100 (v * 100)) ≤ 100 :=
        max_le (by norm_num) (min_le_left _ _)
      rw [h'] at hmax
      exact hmax
    constructor <;> linarith
  · rintro ⟨h0, h1⟩
    show some (max 0 (min 100 (v * 100))) = some (v * 100)
    rw [min_eq_right (by linarith), max_eq_right (by positivity)]

/-- Witness for C8 (amended): a received `1/2` is displayed as exactly
`50` percent. -/
theorem C8_dto_unmodified_amended_witness : truthIndexCell (some (1/2 : ℚ)) = some (50 : ℚ) := by
  have h := (C8_dto_unmodified_amended.2.2 (1/2 : ℚ)).mpr ⟨by norm_num, by norm_num⟩
  rw [h]
  norm_num

/-- Witness for C6: a failed request falls back to the mock, and a
successful one-organization response keeps `usingMock` false. -/
theorem C6_graph_mock_fallback_witness :
    fetchData ⟨5, []⟩ FetchOutcome.failure = mockFallback ⟨5, []⟩ ∧
    (fetchData ⟨5, [⟨⟨1, "A"⟩, 1/2, []⟩]⟩
        (FetchOutcome.success (some ⟨1, [⟨⟨1, "A"⟩, 1/2, []⟩]⟩))).usingMock = false :=
  ⟨(C6_graph_mock_fallback ⟨5, []⟩).1 FetchOutcome.failure trivial |>.1,
   ((C6_graph_mock_fallback ⟨5, [⟨⟨1, "A"⟩, 1/2, []⟩]⟩).2 ⟨1, [⟨⟨1, "A"⟩, 1/2, []⟩]⟩ (by decide)).2⟩

end Veritas

namespace Veritas

theorem foldl_if_eq_getLast?_or {α : Type} (p : α → Prop) [DecidablePred p] :
    ∀ (l : List α) (acc : Option α),
      l.foldl (fun a x => if p x then some x else a) acc
        = ((l.filter (fun x => decide (p x))).getLast?).or acc := by
  intro l
  induction l with
  | nil => intro acc; simp
  | cons x xs ih =>
    intro acc
    rw [List.foldl_cons]
    by_cases hp : p x
    · rw [if_pos hp, ih (some x), List.filter_cons_of_pos (by simpa using hp)]
      cases hl : xs.filter (fun x => decide (p x)) with
      | nil => simp
      | cons y ys =>
        rw [List.getLast?_cons_cons]
        obtain ⟨z, hz⟩ : ∃ z, (y :: ys).getLast? = some z := by
          cases h : (y :: ys).getLast? with
          | none => exact absurd (List.getLast?_eq_none_iff.mp h) (by simp)
          | some z => exact ⟨z, rfl⟩
        rw [hz]
        rfl
    · rw [if_neg hp, ih acc, List.filter_cons_of_neg (by simpa using hp)]

theorem seriesPointAt_eq_getLast? (org : OrgRunningAverage) (d : String) :
    seriesPointAt org d = (org.series.filter (fun pt => decide (pt.date = d))).getLast? := by
  unfold seriesPointAt
  rw [foldl_if_eq_getLast?_or (fun pt => pt.date = d) org.series none, Option.or_none]

theorem mostRecentAtOrBefore_of_point_at {series : List RunningAvgPoint} {d : String}
    (h : series.filter (fun pt => decide (pt.date = d)) ≠ []) :
    mostRecentAtOrBefore series d
      = (series.filter (fun pt => decide (pt.date = d))).getLast? := by
  obtain ⟨w, hwmem, hwdate⟩ : ∃ w ∈ series, w.date = d := by
    obtain ⟨w, hw⟩ := List.exists_mem_of_ne_nil _ h
    have hw' := List.mem_filter.mp hw
    exact ⟨w, hw'.1, by simpa using hw'.2⟩
  simp only [mostRecentAtOrBefore]
  congr 1
  rw [List.filter_filter]
  apply List.filter_congr
  intro pt hpt
  rw [Bool.eq_iff_iff]
  simp only [Bool.and_eq_true, decide_eq_true_eq]
  constructor
  · rintro ⟨hmax, hle⟩
    have hwle : w ∈ series.filter (fun pt => decide (pt.date ≤ d)) :=
      List.mem_filter.mpr ⟨hwmem, by simp [hwdate]⟩
    have hdle : d ≤ pt.date := hwdate ▸ hmax w hwle
    exact le_antisymm hle hdle
  · intro heq
    refine ⟨?_, le_of_eq heq⟩
    intro q hq
    have hq' := List.mem_filter.mp hq
    have : q.date ≤ d := by simpa using hq'.2
    exact heq ▸ this

end Veritas

namespace Veritas

theorem mostRecentAtOrBefore_eq_none {series : List RunningAvgPoint} {d : String}
    (h : ∀ pt ∈ series, ¬(pt.date ≤ d)) : mostRecentAtOrBefore series d = none := by
  simp only [mostRecentAtOrBefore]
  have hle : series.filter (fun pt => decide (pt.date ≤ d)) = [] :=
    List.filter_eq_nil_iff.mpr (by simpa using h)
  rw [hle]
  rfl

theorem mostRecentAtOrBefore_congr {series : List RunningAvgPoint} {d d' : String}
    (h : series.filter (fun pt => decide (pt.date ≤ d))
        = series.filter (fun pt => decide (pt.date ≤ d'))) :
    mostRecentAtOrBefore series d = mostRecentAtOrBefore series d' := by
  simp only [mostRecentAtOrBefore]
  rw [h]

theorem carried_eq_mostRecent (org : OrgRunningAverage) (init : List String) (d : String)
    (hsort : List.Sorted (· < ·) (init ++ [d]))
    (hclo : ∀ pt ∈ org.series, pt.date ≤ d → pt.date ∈ init ++ [d]) :
    (init ++ [d]).foldl
      (fun last d' => match seriesPointAt org d' with
        | some pt => some pt
        | none => last) none
      = mostRecentAtOrBefore org.series d := by
  induction init using List.reverseRecOn generalizing d with
  | nil =>
    simp only [List.nil_append, List.foldl_cons, List.foldl_nil]
    cases hpt : seriesPointAt org d with
    | some pt =>
      have hfil := (seriesPointAt_eq_getLast? org d) ▸ hpt
      have hne : org.series.filter (fun pt => decide (pt.date = d)) ≠ [] := by
        intro heq
        rw [seriesPointAt_eq_getLast? org d, heq] at hpt
        simp at hpt
      rw [mostRecentAtOrBefore_of_point_at hne, ← seriesPointAt_eq_getLast? org d, hpt]
    | none =>
      have hfil : org.series.filter (fun pt => decide (pt.date = d)) = [] := by
        rw [seriesPointAt_eq_getLast? org d] at hpt
        exact List.getLast?_eq_none_iff.mp hpt
      rw [mostRecentAtOrBefore_eq_none]
      intro pt hpt' hle
      have hmem := hclo pt hpt' hle
      rw [List.nil_append, List.mem_singleton] at hmem
      have : pt ∈ org.series.filter (fun pt => decide (pt.date = d)) :=
        List.mem_filter.mpr ⟨hpt', by simp [hmem]⟩
      rw [hfil] at this
      exact absurd this (List.not_mem_nil pt)
  | append_singleton init' d' ih =>
    rw [show (init' ++ [d']) ++ [d] = init' ++ [d'] ++ [d] from rfl, List.foldl_append]
    simp only [List.foldl_cons, List.foldl_nil]
    have hd'd : d' < d := by
      rw [List.Sorted] at hsort
      have := (List.pairwise_append.mp hsort).2.2
      exact this d' (List.mem_append_right _ (List.mem_singleton_self d')) d
        (List.mem_singleton_self d)
    cases hpt : seriesPointAt org d with
    | some pt =>
      have hne : org.series.filter (fun pt => decide (pt.date = d)) ≠ [] := by
        intro heq
        rw [seriesPointAt_eq_getLast? org d, heq] at hpt
        simp at hpt
      rw [mostRecentAtOrBefore_of_point_at hne, ← seriesPointAt_eq_getLast? org d, hpt]
    | none =>
      have hfil : org.series.filter (fun pt => decide (pt.date = d)) = [] := by
        rw [seriesPointAt_eq_getLast? org d] at hpt
        exact List.getLast?_eq_none_iff.mp hpt
      have hnotd : ∀ pt ∈ org.series, pt.date ≠ d := by
        intro pt hmem heq
        have : pt ∈ org.series.filter (fun pt => decide (pt.date = d)) :=
          List.mem_filter.mpr ⟨hmem, by simp [heq]⟩
        rw [hfil] at this
        exact absurd this (List.not_mem_nil pt)
      have hsort' : List.Sorted (· < ·) (init' ++ [d']) :=
        List.Pairwise.sublist (List.sublist_append_left _ _) hsort
      have hinitle : ∀ x ∈ init' ++ [d'], x ≤ d' := by
        intro x hx
        rcases List.mem_append.mp hx with hx' | hx'
        · exact le_of_lt ((List.pairwise_append.mp hsort').2.2 x hx' d'
            (List.mem_singleton_self d'))
        · rw [List.mem_singleton] at hx'
          exact le_of_eq hx'
      have hclo' : ∀ pt ∈ org.series, pt.date ≤ d' → pt.date ∈ init' ++ [d'] := by
        intro pt hmem hle
        have hled : pt.date ≤ d := le_trans hle (le_of_lt hd'd)
        have := hclo pt hmem hled
        rcases List.mem_append.mp this with h1 | h1
        · exact h1
        · rw [List.mem_singleton] at h1
          exact absurd (h1 ▸ hle) (not_le.mpr (h1 ▸ hd'd))
      rw [ih d' hsort' hclo']
      apply mostRecentAtOrBefore_congr
      symm
      apply List.filter_congr
      intro pt hmem
      rw [Bool.eq_iff_iff]
      simp only [decide_eq_true_eq]
      constructor
      · intro h1
        have hlt : pt.date < d := lt_of_le_of_ne h1 (hnotd pt hmem)
        have := hclo pt hmem h1
        rcases List.mem_append.mp this with h2 | h2
        · exact hinitle pt.date h2
        · rw [List.mem_singleton] at h2
          exact absurd h2 (ne_of_lt hlt)
      · intro h1
        exact le_trans h1 (le_of_lt hd'd)
      

end Veritas

namespace Veritas

theorem orgColumnGo_spec (org : OrgRunningAverage) :
    ∀ (ds pre : List String),
      List.Sorted (· < ·) (pre ++ ds) →
      (∀ pt ∈ org.series, pt.date ∈ pre ++ ds) →
      orgColumnGo org
        (pre.foldl (fun last d' => match seriesPointAt org d' with
          | some pt => some pt
          | none => last) none) ds
        = ds.map (fun d => chartCellOf (mostRecentAtOrBefore org.series d)) := by
  intro ds
  induction ds with
  | nil => intro pre _ _; rfl
  | cons d ds' ih =>
    intro pre hsort hclo
    have hassoc : pre ++ d :: ds' = (pre ++ [d]) ++ ds' := by simp
    have hsort1 : List.Sorted (· < ·) ((pre ++ [d]) ++ ds') := by rwa [← hassoc]
    have hdlt : ∀ x ∈ ds', d < x := by
      intro x hx
      have hsub : List.Sorted (· < ·) (d :: ds') :=
        List.Pairwise.sublist (List.sublist_append_right pre _) hsort
      exact (List.pairwise_cons.mp hsub).1 x hx
    have hcur : (pre ++ [d]).foldl
        (fun last d' => match seriesPointAt org d' with
          | some pt => some pt
          | none => last) none = mostRecentAtOrBefore org.series d := by
      apply carried_eq_mostRecent
      · exact List.Pairwise.sublist (List.sublist_append_left _ _) hsort1
      · intro pt hmem hle
        have := hclo pt hmem
        rcases List.mem_append.mp this with h1 | h1
        · exact List.mem_append_left _ h1
        · rcases List.mem_cons.mp h1 with h2 | h2
          · exact List.mem_append_right _ (h2 ▸ List.mem_singleton_self _)
          · exact absurd hle (not_le.mpr (hdlt _ h2))
    have hstep : (pre ++ [d]).foldl
        (fun last d' => match seriesPointAt org d' with
          | some pt => some pt
          | none => last) none
        = (match seriesPointAt org d with
            | some pt => some pt
            | none => pre.foldl (fun last d' => match seriesPointAt org d' with
                | some pt => some pt
                | none => last) none) := by
      rw [List.foldl_append, List.foldl_cons, List.foldl_nil]
    simp only [orgColumnGo]
    rw [← hstep, hcur, List.map_cons]
    congr 1
    have hrec := ih (pre ++ [d]) hsort1 (by rwa [← hassoc])
    rw [hstep] at hrec
    rw [← hcur, hstep]
    exact hrec

/-- C9: the merged chart rows are ordered by strictly ascending date over
the union of all organizations' series dates, and for each organization
the value stored at a row equals `truthIndex * 100` of that
organization's most recent series point at or before the row's date
(carried forward), or `null` when no point exists at or before it.  The
row loop keys `lastKnown` by organization name; the distinct-names
hypothesis is the condition under which the per-organization embedding
of that record is faithful. -/
theorem C9_chartData_merge (orgs : List OrgRunningAverage)
    (_hnames : ((orgs.map (fun o => o.organization.name))).Nodup) :
    List.Sorted (· < ·) (chartDates orgs) ∧
    (∀ d : String, d ∈ chartDates orgs ↔ ∃ o ∈ orgs, ∃ pt ∈ o.series, pt.date = d) ∧
    (∀ o ∈ orgs, orgColumn o (chartDates orgs)
      = (chartDates orgs).map (fun d => chartCellOf (mostRecentAtOrBefore o.series d))) := by
  have hsorted : List.Sorted (· < ·) (chartDates orgs) := Finset.sort_sorted_lt _
  have hmem : ∀ d : String, d ∈ chartDates orgs ↔ ∃ o ∈ orgs, ∃ pt ∈ o.series, pt.date = d := by
    intro d
    unfold chartDates
    rw [Finset.mem_sort, List.mem_toFinset, List.mem_flatMap]
    constructor
    · rintro ⟨o, ho, hd⟩
      obtain ⟨pt, hpt, hdate⟩ := List.mem_map.mp hd
      exact ⟨o, ho, pt, hpt, hdate⟩
    · rintro ⟨o, ho, pt, hpt, hdate⟩
      exact ⟨o, ho, List.mem_map.mpr ⟨pt, hpt, hdate⟩⟩
  refine ⟨hsorted, hmem, ?_⟩
  intro o ho
  unfold orgColumn
  have := orgColumnGo_spec o (chartDates orgs) []
  simp only [List.nil_append, List.foldl_nil] at this
  apply this hsorted
  intro pt hpt
  exact (hmem pt.date).mpr ⟨o, ho, pt, hpt, rfl⟩

/-- Witness for C9 at a concrete two-organization response with
interleaved dates. -/
theorem C9_chartData_merge_witness :
    orgColumn ⟨⟨1, "A"⟩, 1/2, [⟨"2024-01-01", 1/2, 1, 2⟩, ⟨"2024-03-01", 3/4, 3, 4⟩]⟩
        (chartDates [⟨⟨1, "A"⟩, 1/2, [⟨"2024-01-01", 1/2, 1, 2⟩, ⟨"2024-03-01", 3/4, 3, 4⟩]⟩,
          ⟨⟨2, "B"⟩, 1/4, [⟨"2024-02-01", 1/4, 1, 4⟩]⟩])
      = (chartDates [⟨⟨1, "A"⟩, 1/2, [⟨"2024-01-01", 1/2, 1, 2⟩, ⟨"2024-03-01", 3/4, 3, 4⟩]⟩,
          ⟨⟨2, "B"⟩, 1/4, [⟨"2024-02-01", 1/4, 1, 4⟩]⟩]).map
          (fun d => chartCellOf (mostRecentAtOrBefore
            [⟨"2024-01-01", (1 : ℚ)/2, 1, 2⟩, ⟨"2024-03-01", 3/4, 3, 4⟩] d)) :=
  (C9_chartData_merge [⟨⟨1, "A"⟩, 1/2, [⟨"2024-01-01", 1/2, 1, 2⟩, ⟨"2024-03-01", 3/4, 3, 4⟩]⟩,
      ⟨⟨2, "B"⟩, 1/4, [⟨"2024-02-01", 1/4, 1, 4⟩]⟩] (by decide)).2.2
    ⟨⟨1, "A"⟩, 1/2, [⟨"2024-01-01", 1/2, 1, 2⟩, ⟨"2024-03-01", 3/4, 3, 4⟩]⟩
    (List.mem_cons_self _ _)

end Veritas
